import Mathlib

/-!
Verification of the Todo-List server against its specification.

The development shallowly embeds the three server-side pieces the claims
are about: the zod schemas of shared/schema.ts (`parseInsert`,
`parseUpdate`), the in-memory storage of server/storage.ts (`MemStorage`
and its operations over an insertion-ordered entry list modelling the
JavaScript `Map`), and the Express route handlers of server/routes.ts
(`handle`, dispatching over the routes in their registration order).
-/

namespace Todo

/-- Task record as stored by `MemStorage` and serialized by the API:
id, text, completed. -/
structure Task where
  id : Nat
  text : String
  completed : Bool
deriving Repr, DecidableEq

/-- Parsed result of `insertTaskSchema`: `text` required, `completed`
optional (the column has a default). -/
structure InsertTask where
  text : String
  completed : Option Bool
deriving Repr, DecidableEq

/-- Parsed result of `updateTaskSchema`: both fields optional. -/
structure UpdateTask where
  text : Option String
  completed : Option Bool
deriving Repr, DecidableEq

/-- JSON value, as far as the two schema fields can observe one. -/
inductive JVal where
  | str (s : String)
  | bool (b : Bool)
  | num (n : Int)
  | null
deriving Repr, DecidableEq

/-- Raw JSON request body restricted to the keys the schemas pick
(text and completed); `none` models an absent key. -/
structure RawBody where
  text : Option JVal := none
  completed : Option JVal := none
deriving Repr, DecidableEq

/-- Refinement the insert schema puts on text: min 1, max 500. -/
def validText (t : String) : Bool :=
  decide (1 ≤ t.length ∧ t.length ≤ 500)

/-- insertTaskSchema.parse: `text` must be a string of length 1..500;
`completed`, when present, must be a boolean. Any other shape is a
validation error. -/
def parseInsert (b : RawBody) : Option InsertTask :=
  match b.text with
  | some (.str t) =>
    if validText t then
      match b.completed with
      | none => some ⟨t, none⟩
      | some (.bool c) => some ⟨t, some c⟩
      | some _ => none
    else none
  | _ => none

/-- updateTaskSchema.parse: both fields optional; `text`, when present,
may be any string because this schema carries no length refinement;
`completed`, when present, must be a boolean. -/
def parseUpdate (b : RawBody) : Option UpdateTask :=
  match b.text, b.completed with
  | none, none => some ⟨none, none⟩
  | some (.str t), none => some ⟨some t, none⟩
  | none, some (.bool c) => some ⟨none, some c⟩
  | some (.str t), some (.bool c) => some ⟨some t, some c⟩
  | _, _ => none

/-- Whitespace characters JavaScript parseInt skips before the number. -/
def isJsSpace (c : Char) : Bool :=
  c == ' ' || c == '\t' || c == '\n' || c == '\r' || c == '\x0b' || c == '\x0c'

/-- Decimal digit value of a character, if any. -/
def digitVal (c : Char) : Option Nat :=
  if '0' ≤ c ∧ c ≤ '9' then some (c.toNat - '0'.toNat) else none

/-- Hexadecimal digit value of a character, if any. -/
def hexVal (c : Char) : Option Nat :=
  if '0' ≤ c ∧ c ≤ '9' then some (c.toNat - '0'.toNat)
  else if 'a' ≤ c ∧ c ≤ 'f' then some (c.toNat - 'a'.toNat + 10)
  else if 'A' ≤ c ∧ c ≤ 'F' then some (c.toNat - 'A'.toNat + 10)
  else none

/-- Accumulate the value of the longest digit run at the front. -/
def digitsLoop (dv : Char → Option Nat) (base : Nat) : Nat → List Char → Nat
  | acc, [] => acc
  | acc, c :: cs =>
    match dv c with
    | none => acc
    | some d => digitsLoop dv base (acc * base + d) cs

/-- Value of the longest digit run at the front; `none` when the first
character is not a digit. -/
def takeDigits (dv : Char → Option Nat) (base : Nat) : List Char → Option Nat
  | [] => none
  | c :: cs =>
    match dv c with
    | none => none
    | some d => some (digitsLoop dv base d cs)

/-- Optional sign at the front of the remaining characters. -/
def parseIntSign : List Char → Int × List Char
  | '-' :: rest => (-1, rest)
  | '+' :: rest => (1, rest)
  | cs => (1, cs)

/-- Magnitude after the sign: a 0x or 0X prefix switches to radix 16,
otherwise the longest decimal run is taken. -/
def parseIntBody : List Char → Option Nat
  | '0' :: 'x' :: rest => takeDigits hexVal 16 rest
  | '0' :: 'X' :: rest => takeDigits hexVal 16 rest
  | cs => takeDigits digitVal 10 cs

/-- Model of JavaScript parseInt with the default radix: skip leading
whitespace, read an optional sign, then either a hexadecimal literal or
the longest decimal-digit run; NaN (here `none`) when no digit follows. -/
def parseIntJS (s : String) : Option Int :=
  let cs := s.data.dropWhile isJsSpace
  let sc := parseIntSign cs
  (parseIntBody sc.2).map (fun n => sc.1 * (n : Int))

/-- Entry list of the MemStorage Map keyed by task id, in insertion
order; every entry is stored under the key equal to its own id field. -/
abbrev TaskMap := List Task

/-- Map.get(id): first entry whose key equals the requested number. -/
def mapGet (l : TaskMap) (id : Int) : Option Task :=
  l.find? (fun t => (t.id : Int) == id)

/-- Map.set(task.id, task): replace the entry with that key in place, or
append a fresh entry at the end. -/
def mapSet : TaskMap → Task → TaskMap
  | [], t => [t]
  | u :: rest, t => if u.id = t.id then t :: rest else u :: mapSet rest t

/-- Map.delete(id): whether an entry with that key existed, paired with
the remaining entries. -/
def mapDelete (l : TaskMap) (id : Int) : Bool × TaskMap :=
  (l.any (fun t => (t.id : Int) == id), l.filter (fun t => !((t.id : Int) == id)))

/-- State of a MemStorage instance: the task map and the id counter. -/
structure MemStorage where
  tasks : TaskMap
  currentId : Nat
deriving Repr, DecidableEq

/-- Constructor of MemStorage: empty map, counter starting at 1. -/
def MemStorage.init : MemStorage := ⟨[], 1⟩

/-- getTasks(): all values of the map, sorted by ascending id (a stable
sort under the comparator a.id - b.id). -/
def getTasks (s : MemStorage) : List Task :=
  s.tasks.insertionSort (fun a b => a.id ≤ b.id)

/-- getTask(id). -/
def getTask (s : MemStorage) (id : Int) : Option Task :=
  mapGet s.tasks id

/-- createTask: allocate id = currentId and increment the counter; the
record's completed flag is the given one or-else false; the record is
stored and returned. -/
def createTask (s : MemStorage) (ins : InsertTask) : Task × MemStorage :=
  let task : Task := ⟨s.currentId, ins.text, ins.completed.getD false⟩
  (task, ⟨mapSet s.tasks task, s.currentId + 1⟩)

/-- updateTask: when the id is present, spread the provided fields over
the existing record (absent fields keep their old values, id comes only
from the existing record), store the merged record and return it;
otherwise return the not-found signal and leave the state alone. -/
def updateTask (s : MemStorage) (id : Int) (u : UpdateTask) : Option Task × MemStorage :=
  match mapGet s.tasks id with
  | none => (none, s)
  | some existing =>
    let updated : Task :=
      ⟨existing.id, u.text.getD existing.text, u.completed.getD existing.completed⟩
    (some updated, ⟨mapSet s.tasks updated, s.currentId⟩)

/-- deleteTask: Map.delete, returning whether a record was removed. -/
def deleteTask (s : MemStorage) (id : Int) : Bool × MemStorage :=
  let r := mapDelete s.tasks id
  (r.1, ⟨r.2, s.currentId⟩)

/-- clearCompletedTasks: collect the completed records, delete each of
them by id, and return how many were collected. -/
def clearCompletedTasks (s : MemStorage) : Nat × MemStorage :=
  let completedTasks := s.tasks.filter (fun t => t.completed)
  let remaining := completedTasks.foldl (fun acc t => (mapDelete acc (t.id : Int)).2) s.tasks
  (completedTasks.length, ⟨remaining, s.currentId⟩)

/-- HTTP method of a request. -/
inductive Method where
  | get
  | post
  | put
  | delete
deriving Repr, DecidableEq

/-- JSON bodies the handlers respond with. -/
inductive RespBody where
  | tasksJson (ts : List Task)
  | taskJson (t : Task)
  | messageJson (m : String)
  | deletedCountJson (n : Nat)
  | emptyBody
deriving Repr, DecidableEq

/-- HTTP response: status code and body. -/
structure Response where
  status : Nat
  body : RespBody
deriving Repr, DecidableEq

/-- HTTP request: method, path segments, JSON body. -/
structure Request where
  method : Method
  path : List String
  body : RawBody
deriving Repr, DecidableEq

/-- Handler of GET /api/tasks. -/
def getTasksRoute (s : MemStorage) : Response × MemStorage :=
  (⟨200, .tasksJson (getTasks s)⟩, s)

/-- Handler of POST /api/tasks; a schema failure surfaces the first
validation message as a 400 (the message text itself is abstracted). -/
def createTaskRoute (b : RawBody) (s : MemStorage) : Response × MemStorage :=
  match parseInsert b with
  | none => (⟨400, .messageJson "Validation error"⟩, s)
  | some ins =>
    let r := createTask s ins
    (⟨201, .taskJson r.1⟩, r.2)

/-- Handler of PUT /api/tasks/:id: parseInt the id (NaN gives 400),
validate the body, update, 404 when the id is absent. -/
def updateTaskRoute (idStr : String) (b : RawBody) (s : MemStorage) : Response × MemStorage :=
  match parseIntJS idStr with
  | none => (⟨400, .messageJson "Invalid task ID"⟩, s)
  | some id =>
    match parseUpdate b with
    | none => (⟨400, .messageJson "Validation error"⟩, s)
    | some u =>
      match updateTask s id u with
      | (none, s2) => (⟨404, .messageJson "Task not found"⟩, s2)
      | (some t, s2) => (⟨200, .taskJson t⟩, s2)

/-- Handler of DELETE /api/tasks/:id: parseInt the id (NaN gives 400),
delete, 404 when nothing was removed, 204 otherwise. -/
def deleteTaskRoute (idStr : String) (s : MemStorage) : Response × MemStorage :=
  match parseIntJS idStr with
  | none => (⟨400, .messageJson "Invalid task ID"⟩, s)
  | some id =>
    match deleteTask s id with
    | (true, s2) => (⟨204, .emptyBody⟩, s2)
    | (false, s2) => (⟨404, .messageJson "Task not found"⟩, s2)

/-- Handler of DELETE /api/tasks/completed. -/
def clearCompletedRoute (s : MemStorage) : Response × MemStorage :=
  let r := clearCompletedTasks s
  (⟨200, .deletedCountJson r.1⟩, r.2)

/-- Loop of the toggle-all handler: update each listed task in turn to
the new status, collecting only the updates that returned a record. -/
def toggleLoop (status : Bool) : List Task → MemStorage → List Task × MemStorage
  | [], s => ([], s)
  | t :: rest, s =>
    let r := updateTask s (t.id : Int) ⟨none, some status⟩
    let r' := toggleLoop status rest r.2
    match r.1 with
    | some u => (u :: r'.1, r'.2)
    | none => r'

/-- Handler of PUT /api/tasks/toggle-all: compute whether every task is
completed, flip everyone to the negation, answer with the collected
updated records. -/
def toggleAllRoute (s : MemStorage) : Response × MemStorage :=
  let tasks := getTasks s
  let allCompleted := tasks.all (fun t => t.completed)
  let r := toggleLoop (!allCompleted) tasks s
  (⟨200, .tasksJson r.1⟩, r.2)

/-- Segment of an Express route pattern: a literal or a named parameter. -/
inductive PatSeg where
  | lit (s : String)
  | param
deriving Repr, DecidableEq

/-- Match a pattern against path segments, returning the parameter
bindings in order; a parameter requires a non-empty segment. -/
def matchPat : List PatSeg → List String → Option (List String)
  | [], [] => some []
  | .lit a :: ps, seg :: rest => if seg = a then matchPat ps rest else none
  | .param :: ps, seg :: rest =>
    if seg = "" then none else (matchPat ps rest).map (fun l => seg :: l)
  | _, _ => none

/-- Names of the six registered handlers. -/
inductive RouteId where
  | getTasksR
  | createR
  | updateR
  | deleteR
  | clearCompletedR
  | toggleAllR
deriving Repr, DecidableEq

/-- Route table in exactly the order registerRoutes registers them: the
two parameterized routes come before /api/tasks/completed and
/api/tasks/toggle-all. -/
def routes : List (Method × List PatSeg × RouteId) :=
  [ (.get, [.lit "api", .lit "tasks"], .getTasksR),
    (.post, [.lit "api", .lit "tasks"], .createR),
    (.put, [.lit "api", .lit "tasks", .param], .updateR),
    (.delete, [.lit "api", .lit "tasks", .param], .deleteR),
    (.delete, [.lit "api", .lit "tasks", .lit "completed"], .clearCompletedR),
    (.put, [.lit "api", .lit "tasks", .lit "toggle-all"], .toggleAllR) ]

/-- First route whose method and pattern match, with its bindings. -/
def findRoute : List (Method × List PatSeg × RouteId) → Method → List String → Option (RouteId × List String)
  | [], _, _ => none
  | (m, pat, rid) :: rest, meth, path =>
    if m = meth then
      match matchPat pat path with
      | some params => some (rid, params)
      | none => findRoute rest meth path
    else findRoute rest meth path

/-- Run the selected handler with its bound id parameter. -/
def runRoute : RouteId → List String → RawBody → MemStorage → Response × MemStorage
  | .getTasksR, _, _, s => getTasksRoute s
  | .createR, _, b, s => createTaskRoute b s
  | .updateR, params, b, s => updateTaskRoute (params.headD "") b s
  | .deleteR, params, _, s => deleteTaskRoute (params.headD "") s
  | .clearCompletedR, _, _, s => clearCompletedRoute s
  | .toggleAllR, _, _, s => toggleAllRoute s

/-- Express dispatch: the first registered route whose method and path
match handles the request; unmatched requests get the framework 404. -/
def handle (req : Request) (s : MemStorage) : Response × MemStorage :=
  match findRoute routes req.method req.path with
  | some r => runRoute r.1 r.2 req.body s
  | none => (⟨404, .emptyBody⟩, s)

/-- Storage-level operation, as the API layer invokes the store. -/
inductive SOp where
  | screate (ins : InsertTask)
  | supdate (id : Int) (u : UpdateTask)
  | sdelete (id : Int)
  | sclear
deriving Repr, DecidableEq

/-- Run storage operations in order, collecting the id of each record
createTask returns, in call order. -/
def runOps : MemStorage → List SOp → MemStorage × List Nat
  | s, [] => (s, [])
  | s, .screate ins :: rest =>
    let r := createTask s ins
    let r' := runOps r.2 rest
    (r'.1, r.1.id :: r'.2)
  | s, .supdate id u :: rest => runOps (updateTask s id u).2 rest
  | s, .sdelete id :: rest => runOps (deleteTask s id).2 rest
  | s, .sclear :: rest => runOps (clearCompletedTasks s).2 rest

/-- Number of create operations in a sequence. -/
def createCount : List SOp → Nat
  | [] => 0
  | .screate _ :: rest => createCount rest + 1
  | .supdate _ _ :: rest => createCount rest
  | .sdelete _ :: rest => createCount rest
  | .sclear :: rest => createCount rest

/-- Validity of the text carried by a storage-level create, as the insert
schema enforces it. -/
def SOp.validText : SOp → Bool
  | .screate ins => decide (1 ≤ ins.text.length ∧ ins.text.length ≤ 500)
  | _ => true

/-- HTTP request to the API, as the reachable-state claims range over. -/
inductive ApiOp where
  | createOp (b : RawBody)
  | updateOp (idStr : String) (b : RawBody)
  | deleteOp (idStr : String)
  | clearOp
  | toggleOp
deriving Repr, DecidableEq

/-- The request each API operation sends. -/
def ApiOp.toRequest : ApiOp → Request
  | .createOp b => ⟨.post, ["api", "tasks"], b⟩
  | .updateOp idStr b => ⟨.put, ["api", "tasks", idStr], b⟩
  | .deleteOp idStr => ⟨.delete, ["api", "tasks", idStr], ⟨none, none⟩⟩
  | .clearOp => ⟨.delete, ["api", "tasks", "completed"], ⟨none, none⟩⟩
  | .toggleOp => ⟨.put, ["api", "tasks", "toggle-all"], ⟨none, none⟩⟩

/-- Store state after the API handled a sequence of requests. -/
def runApi (s : MemStorage) (ops : List ApiOp) : MemStorage :=
  ops.foldl (fun st op => (handle op.toRequest st).2) s

/-- An operation never carrying an empty text string in its body. -/
def ApiOp.textSafe : ApiOp → Bool
  | .updateOp _ b =>
    match b.text with
    | some (.str t) => !(t == "")
    | _ => true
  | _ => true

/-- Every task of the store has non-empty text. -/
def TextInv (s : MemStorage) : Prop :=
  ∀ t ∈ s.tasks, t.text ≠ ""

/-- Frame property of updateTask at a store, id, update and the record
found there: the returned record merges only the provided fields over the
existing one and keeps its id, the merged record is stored under the same
key, every other key reads as before, and the id counter is untouched. -/
def UpdateFrame (s : MemStorage) (id : Int) (u : UpdateTask) (t : Task) : Prop :=
  (updateTask s id u).1 = some ⟨t.id, u.text.getD t.text, u.completed.getD t.completed⟩ ∧
  mapGet (updateTask s id u).2.tasks id = some ⟨t.id, u.text.getD t.text, u.completed.getD t.completed⟩ ∧
  (∀ k : Int, k ≠ id → mapGet (updateTask s id u).2.tasks k = mapGet s.tasks k) ∧
  (updateTask s id u).2.currentId = s.currentId

/-- Contract of clearCompletedTasks at a store: it returns the number of
completed records, leaves exactly the non-completed entries, and a
subsequent getTasks lists the remaining records, each unchanged and
originally incomplete. -/
def ClearSpec (s : MemStorage) : Prop :=
  (clearCompletedTasks s).1 = (s.tasks.filter (fun t => t.completed)).length ∧
  (clearCompletedTasks s).2.tasks = s.tasks.filter (fun t => !t.completed) ∧
  (getTasks (clearCompletedTasks s).2).Perm ((getTasks s).filter (fun t => !t.completed)) ∧
  (getTasks (clearCompletedTasks s).2).length = (getTasks s).length - (clearCompletedTasks s).1 ∧
  ∀ t ∈ getTasks (clearCompletedTasks s).2, t ∈ s.tasks ∧ t.completed = false

/-- Membership after Map.set: the new value or an old entry. -/
theorem mem_mapSet {l : TaskMap} {t u : Task} (h : u ∈ mapSet l t) : u = t ∨ u ∈ l := by
  induction l with
  | nil =>
    simp only [mapSet, List.mem_singleton] at h
    exact Or.inl h
  | cons v rest ih =>
    simp only [mapSet] at h
    by_cases hv : v.id = t.id
    · rw [if_pos hv] at h
      rcases List.mem_cons.mp h with h | h
      · exact Or.inl h
      · exact Or.inr (List.mem_cons_of_mem _ h)
    · rw [if_neg hv] at h
      rcases List.mem_cons.mp h with h | h
      · exact Or.inr (h ▸ List.mem_cons_self _ _)
      · rcases ih h with h' | h'
        · exact Or.inl h'
        · exact Or.inr (List.mem_cons_of_mem _ h')

/-- A record found by Map.get is an entry of the map. -/
theorem mem_of_mapGet {l : TaskMap} {id : Int} {t : Task} (h : mapGet l id = some t) :
    t ∈ l :=
  List.mem_of_find?_eq_some h

/-- A record found by Map.get carries the requested key. -/
theorem mapGet_id {l : TaskMap} {id : Int} {t : Task} (h : mapGet l id = some t) :
    (t.id : Int) = id := by
  have := List.find?_some h
  simpa using this

/-- Map.get after Map.set at the written key returns the written value. -/
theorem mapGet_mapSet_self (l : TaskMap) (t : Task) :
    mapGet (mapSet l t) (t.id : Int) = some t := by
  induction l with
  | nil => simp [mapSet, mapGet, List.find?]
  | cons v rest ih =>
    by_cases hv : v.id = t.id
    · simp [mapSet, if_pos hv, mapGet, List.find?]
    · have hne : ((v.id : Int) == (t.id : Int)) = false := by
        simp only [beq_eq_false_iff_ne, ne_eq, Int.natCast_inj]
        exact hv
      simp only [mapSet, if_neg hv]
      simpa [mapGet, List.find?, hne] using ih

/-- Map.get after Map.set at any other key is unchanged. -/
theorem mapGet_mapSet_ne (l : TaskMap) (t : Task) {k : Int} (hk : k ≠ (t.id : Int)) :
    mapGet (mapSet l t) k = mapGet l k := by
  induction l with
  | nil =>
    have : ((t.id : Int) == k) = false := by
      simp only [beq_eq_false_iff_ne, ne_eq]
      exact fun h => hk h.symm
    simp [mapSet, mapGet, List.find?, this]
  | cons v rest ih =>
    by_cases hv : v.id = t.id
    · have hvk : ((v.id : Int) == k) = false := by
        simp only [beq_eq_false_iff_ne, ne_eq]
        intro h
        apply hk
        rw [← h]
        exact_mod_cast hv
      have htk : ((t.id : Int) == k) = false := by
        simp only [beq_eq_false_iff_ne, ne_eq]
        exact fun h => hk h.symm
      simp [mapSet, if_pos hv, mapGet, List.find?, hvk, htk]
    · simp only [mapSet, if_neg hv]
      unfold mapGet
      cases hvk : ((v.id : Int) == k) with
      | true => simp [List.find?, hvk]
      | false => simpa [List.find?, hvk] using ih

/-- updateTask never touches the id counter. -/
theorem currentId_updateTask (s : MemStorage) (id : Int) (u : UpdateTask) :
    (updateTask s id u).2.currentId = s.currentId := by
  unfold updateTask
  cases mapGet s.tasks id <;> rfl

/-- deleteTask never touches the id counter. -/
theorem currentId_deleteTask (s : MemStorage) (id : Int) :
    (deleteTask s id).2.currentId = s.currentId := rfl

/-- clearCompletedTasks never touches the id counter. -/
theorem currentId_clearCompletedTasks (s : MemStorage) :
    (clearCompletedTasks s).2.currentId = s.currentId := rfl

/-- C6: updating an id that is absent from the store returns the
not-found signal (none) and leaves the whole store state unchanged. -/
theorem update_absent_id_unchanged (s : MemStorage) (id : Int) (u : UpdateTask)
    (h : mapGet s.tasks id = none) : updateTask s id u = (none, s) := by
  unfold updateTask
  rw [h]

theorem update_absent_id_unchanged_witness :
    mapGet MemStorage.init.tasks 5 = none ∧
    updateTask MemStorage.init 5 ⟨none, some true⟩ = (none, MemStorage.init) :=
  ⟨rfl, update_absent_id_unchanged MemStorage.init 5 ⟨none, some true⟩ rfl⟩

/-- C8: updating a present id merges exactly the provided fields over the
existing record, keeps the record's id, stores the merged record under
the same key, and leaves every other key and the id counter untouched. -/
theorem update_frame (s : MemStorage) (id : Int) (u : UpdateTask) (t : Task)
    (h : mapGet s.tasks id = some t) : UpdateFrame s id u t := by
  have hid : (t.id : Int) = id := mapGet_id h
  unfold UpdateFrame updateTask
  rw [h]
  refine ⟨rfl, ?_, ?_, rfl⟩
  · rw [← hid]
    exact mapGet_mapSet_self s.tasks ⟨t.id, u.text.getD t.text, u.completed.getD t.completed⟩
  · intro k hk
    exact mapGet_mapSet_ne s.tasks _ (by rw [hid]; exact hk)

theorem update_frame_witness :
    mapGet ({ tasks := [⟨1, "a", false⟩, ⟨2, "b", true⟩], currentId := 3 } : MemStorage).tasks 1
      = some ⟨1, "a", false⟩ ∧
    UpdateFrame ⟨[⟨1, "a", false⟩, ⟨2, "b", true⟩], 3⟩ 1 ⟨none, some true⟩ ⟨1, "a", false⟩ :=
  ⟨rfl, update_frame ⟨[⟨1, "a", false⟩, ⟨2, "b", true⟩], 3⟩ 1 ⟨none, some true⟩ ⟨1, "a", false⟩ rfl⟩

/-- C9: deleting a present id reports true and removes the record; an
immediately repeated delete of the same id reports false and changes
nothing, because the record is already absent. -/
theorem delete_twice (s : MemStorage) (id : Int) (h : mapGet s.tasks id ≠ none) :
    (deleteTask s id).1 = true ∧
    mapGet (deleteTask s id).2.tasks id = none ∧
    (deleteTask (deleteTask s id).2 id).1 = false ∧
    (deleteTask (deleteTask s id).2 id).2 = (deleteTask s id).2 := by
  obtain ⟨t, ht⟩ := Option.ne_none_iff_exists'.mp h
  have ht' : List.find? (fun x => (x.id : Int) == id) s.tasks = some t := ht
  have htp : ((t.id : Int) == id) = true :=
    List.find?_some (p := fun x => (x.id : Int) == id) (a := t) ht'
  have htm : t ∈ s.tasks := List.mem_of_find?_eq_some ht'
  refine ⟨?_, ?_, ?_, ?_⟩
  · exact List.any_eq_true.mpr ⟨t, htm, htp⟩
  · refine List.find?_eq_none.mpr ?_
    intro x hx
    have := List.mem_filter.mp hx
    simpa using this.2
  · show (List.filter _ s.tasks).any _ = false
    rw [← Bool.not_eq_true]
    intro hc
    obtain ⟨x, hx, hxp⟩ := List.any_eq_true.mp hc
    have := (List.mem_filter.mp hx).2
    rw [hxp] at this
    simp at this
  · show (⟨_, _⟩ : MemStorage) = _
    have : List.filter (fun t => !((t.id : Int) == id)) (List.filter (fun t => !((t.id : Int) == id)) s.tasks)
        = List.filter (fun t => !((t.id : Int) == id)) s.tasks := by
      refine List.filter_eq_self.mpr ?_
      intro a ha
      exact (List.mem_filter.mp ha).2
    simp only [deleteTask, mapDelete]
    rw [this]

theorem delete_twice_witness :
    mapGet ({ tasks := [⟨1, "a", false⟩], currentId := 2 } : MemStorage).tasks 1 ≠ none ∧
    ((deleteTask ⟨[⟨1, "a", false⟩], 2⟩ 1).1 = true ∧
     mapGet (deleteTask ⟨[⟨1, "a", false⟩], 2⟩ 1).2.tasks 1 = none ∧
     (deleteTask (deleteTask ⟨[⟨1, "a", false⟩], 2⟩ 1).2 1).1 = false ∧
     (deleteTask (deleteTask ⟨[⟨1, "a", false⟩], 2⟩ 1).2 1).2 = (deleteTask ⟨[⟨1, "a", false⟩], 2⟩ 1).2) :=
  ⟨by decide, delete_twice ⟨[⟨1, "a", false⟩], 2⟩ 1 (by decide)⟩

/-- C10: getTasks returns exactly the tasks currently in the store (a
permutation of the map's entries), sorted in ascending order of id; it is
a total function, so it never fails. -/
theorem getTasks_sorted_perm (s : MemStorage) :
    (getTasks s).Perm s.tasks ∧ List.Pairwise (fun a b => a.id ≤ b.id) (getTasks s) := by
  constructor
  · exact List.perm_insertionSort _ _
  · haveI ht : IsTotal Task (fun a b => a.id ≤ b.id) := ⟨fun a b => Nat.le_total a.id b.id⟩
    haveI htr : IsTrans Task (fun a b => a.id ≤ b.id) := ⟨fun _ _ _ => Nat.le_trans⟩
    exact List.sorted_insertionSort _ _

/-- Created ids of a run are consecutive from the starting counter, and
the counter advances by exactly the number of creates. -/
theorem runOps_ids (ops : List SOp) : ∀ s : MemStorage,
    (runOps s ops).2 = List.range' s.currentId (createCount ops) ∧
    (runOps s ops).1.currentId = s.currentId + createCount ops := by
  induction ops with
  | nil => intro s; exact ⟨rfl, rfl⟩
  | cons op rest ih =>
    intro s
    cases op with
    | screate ins =>
      have h := ih (createTask s ins).2
      have hc : (createTask s ins).2.currentId = s.currentId + 1 := rfl
      constructor
      · show (createTask s ins).1.id :: (runOps (createTask s ins).2 rest).2
            = List.range' s.currentId (createCount rest + 1)
        rw [List.range'_succ, h.1, hc]
        rfl
      · show (runOps (createTask s ins).2 rest).1.currentId = s.currentId + (createCount rest + 1)
        rw [h.2, hc]
        omega
    | supdate id u =>
      have h := ih (updateTask s id u).2
      have hc : (updateTask s id u).2.currentId = s.currentId := currentId_updateTask s id u
      rw [show runOps s (SOp.supdate id u :: rest) = runOps (updateTask s id u).2 rest from rfl,
          show createCount (SOp.supdate id u :: rest) = createCount rest from rfl,
          h.1, h.2, hc]
      exact ⟨rfl, rfl⟩
    | sdelete id =>
      have h := ih (deleteTask s id).2
      have hc : (deleteTask s id).2.currentId = s.currentId := rfl
      rw [show runOps s (SOp.sdelete id :: rest) = runOps (deleteTask s id).2 rest from rfl,
          show createCount (SOp.sdelete id :: rest) = createCount rest from rfl,
          h.1, h.2, hc]
      exact ⟨rfl, rfl⟩
    | sclear =>
      have h := ih (clearCompletedTasks s).2
      have hc : (clearCompletedTasks s).2.currentId = s.currentId := rfl
      rw [show runOps s (SOp.sclear :: rest) = runOps (clearCompletedTasks s).2 rest from rfl,
          show createCount (SOp.sclear :: rest) = createCount rest from rfl,
          h.1, h.2, hc]
      exact ⟨rfl, rfl⟩

/-- C5: across any sequence of valid store operations starting from the
constructor state, the ids handed out by the creates are exactly
1, 2, ..., n in call order, hence strictly increasing and never reused
even when deletes and clears are interleaved; moreover a create whose
input omits completed returns the record with id = the current counter
and completed = false, stores it under that id, and advances the
counter. -/
theorem create_ids_sequential (ops : List SOp) (_h : ops.all SOp.validText = true) :
    (runOps MemStorage.init ops).2 = List.range' 1 (createCount ops) ∧
    List.Pairwise (· < ·) (runOps MemStorage.init ops).2 ∧
    ∀ (s : MemStorage) (text : String),
      (createTask s ⟨text, none⟩).1 = ⟨s.currentId, text, false⟩ ∧
      mapGet (createTask s ⟨text, none⟩).2.tasks (s.currentId : Int)
        = some ⟨s.currentId, text, false⟩ ∧
      (createTask s ⟨text, none⟩).2.currentId = s.currentId + 1 := by
  have hr := (runOps_ids ops MemStorage.init).1
  refine ⟨hr, ?_, ?_⟩
  · rw [hr]
    exact List.pairwise_lt_range' 1 (createCount ops)
  · intro s text
    exact ⟨rfl, mapGet_mapSet_self s.tasks ⟨s.currentId, text, false⟩, rfl⟩

theorem create_ids_sequential_witness :
    ([SOp.screate ⟨"a", none⟩, SOp.sdelete 1, SOp.screate ⟨"b", some true⟩].all SOp.validText
       = true) ∧
    ((runOps MemStorage.init
        [SOp.screate ⟨"a", none⟩, SOp.sdelete 1, SOp.screate ⟨"b", some true⟩]).2
       = List.range' 1
           (createCount [SOp.screate ⟨"a", none⟩, SOp.sdelete 1, SOp.screate ⟨"b", some true⟩]) ∧
     List.Pairwise (· < ·)
       (runOps MemStorage.init
         [SOp.screate ⟨"a", none⟩, SOp.sdelete 1, SOp.screate ⟨"b", some true⟩]).2 ∧
     ∀ (s : MemStorage) (text : String),
       (createTask s ⟨text, none⟩).1 = ⟨s.currentId, text, false⟩ ∧
       mapGet (createTask s ⟨text, none⟩).2.tasks (s.currentId : Int)
         = some ⟨s.currentId, text, false⟩ ∧
       (createTask s ⟨text, none⟩).2.currentId = s.currentId + 1) :=
  ⟨by decide,
   create_ids_sequential [SOp.screate ⟨"a", none⟩, SOp.sdelete 1, SOp.screate ⟨"b", some true⟩]
     (by decide)⟩

/-- Folding Map.delete over a list of records removes exactly the entries
whose key equals one of the listed ids. -/
theorem foldl_mapDelete_eq_filter (ds : List Task) : ∀ l : TaskMap,
    ds.foldl (fun acc d => (mapDelete acc (d.id : Int)).2) l
      = l.filter (fun t => !(ds.any (fun d => (t.id : Int) == (d.id : Int)))) := by
  induction ds with
  | nil =>
    intro l
    simp [List.filter_eq_self]
  | cons d ds ih =>
    intro l
    show ds.foldl _ (mapDelete l (d.id : Int)).2 = _
    rw [ih (mapDelete l (d.id : Int)).2]
    show List.filter _ (List.filter _ l) = _
    rw [List.filter_filter]
    refine List.filter_congr ?_
    intro x _
    simp only [List.any_cons, Bool.not_or, Bool.and_comm]

/-- Entries kept and entries dropped by a filter partition the list. -/
theorem length_filter_split (p : Task → Bool) (l : List Task) :
    (l.filter p).length + (l.filter (fun t => !p t)).length = l.length := by
  induction l with
  | nil => rfl
  | cons a l ih =>
    cases hp : p a <;> simp [List.filter_cons, hp, ← ih] <;> omega

/-- Under pairwise-distinct ids (as every reachable store satisfies),
deleting each completed record leaves exactly the non-completed ones. -/
theorem clearCompleted_tasks_eq (s : MemStorage)
    (hnd : s.tasks.Pairwise (fun a b => a.id ≠ b.id)) :
    (clearCompletedTasks s).2.tasks = s.tasks.filter (fun t => !t.completed) := by
  show (s.tasks.filter (fun t => t.completed)).foldl _ s.tasks = _
  rw [foldl_mapDelete_eq_filter]
  refine List.filter_congr ?_
  intro a ha
  congr 1
  cases hc : a.completed with
  | true =>
    refine List.any_eq_true.mpr ⟨a, ?_, ?_⟩
    · exact List.mem_filter.mpr ⟨ha, hc⟩
    · simp
  | false =>
    rw [← Bool.not_eq_true]
    intro hany
    obtain ⟨d, hd, hdp⟩ := List.any_eq_true.mp hany
    obtain ⟨hdm, hdc⟩ := List.mem_filter.mp hd
    have hne : a ≠ d := by
      intro he
      rw [← he] at hdc
      rw [hdc] at hc
      cases hc
    have hids : a.id ≠ d.id :=
      List.Pairwise.forall (by intro x y hxy he; exact hxy he.symm) hnd ha hdm hne
    apply hids
    have : (a.id : Int) = (d.id : Int) := by simpa using hdp
    exact_mod_cast this

/-- C7: on a store whose entries carry pairwise-distinct ids,
clearCompletedTasks returns the number K of completed tasks, removes
exactly those K records, and the remaining list has N - K tasks, each an
unchanged, originally incomplete record of the old store. -/
theorem clearCompleted_removes_exactly_completed (s : MemStorage)
    (hnd : s.tasks.Pairwise (fun a b => a.id ≠ b.id)) : ClearSpec s := by
  have htasks := clearCompleted_tasks_eq s hnd
  have hperm2 : (getTasks (clearCompletedTasks s).2).Perm (clearCompletedTasks s).2.tasks :=
    List.perm_insertionSort _ _
  have hperm1 : (getTasks s).Perm s.tasks := List.perm_insertionSort _ _
  have hchain : (getTasks (clearCompletedTasks s).2).Perm
      ((getTasks s).filter (fun t => !t.completed)) := by
    refine (hperm2.trans ?_).trans (hperm1.filter _).symm
    rw [htasks]
  refine ⟨rfl, htasks, hchain, ?_, ?_⟩
  · have h1 : (getTasks (clearCompletedTasks s).2).length
        = (s.tasks.filter (fun t => !t.completed)).length := by
      rw [hperm2.length_eq, htasks]
    have h2 : (getTasks s).length = s.tasks.length := hperm1.length_eq
    have h3 := length_filter_split (fun t => t.completed) s.tasks
    have h4 : (clearCompletedTasks s).1 = (s.tasks.filter (fun t => t.completed)).length := rfl
    omega
  · intro t ht
    have : t ∈ (clearCompletedTasks s).2.tasks := hperm2.mem_iff.mp ht
    rw [htasks] at this
    obtain ⟨hm, hc⟩ := List.mem_filter.mp this
    exact ⟨hm, by simpa using hc⟩

theorem clearCompleted_removes_exactly_completed_witness :
    (({ tasks := [⟨1, "a", true⟩, ⟨2, "b", false⟩, ⟨3, "c", true⟩], currentId := 4 } :
        MemStorage).tasks.Pairwise (fun a b => a.id ≠ b.id)) ∧
    ClearSpec ⟨[⟨1, "a", true⟩, ⟨2, "b", false⟩, ⟨3, "c", true⟩], 4⟩ :=
  ⟨by decide,
   clearCompleted_removes_exactly_completed ⟨[⟨1, "a", true⟩, ⟨2, "b", false⟩, ⟨3, "c", true⟩], 4⟩
     (by decide)⟩

/-- C1: the claim fails on the code because PUT /api/tasks/:id is
registered before PUT /api/tasks/toggle-all, so every toggle-all request
is captured by the :id route, parseInt yields NaN on "toggle-all", and
the server answers 400 Invalid task ID with the store untouched — on
every store state, the empty one included. The toggle-all handler itself,
were it reachable, does behave as the specification says: on the empty
store it answers 200 with the empty array, and on one completed plus one
incomplete task it sets both to completed. -/
theorem toggleAll_request_shadowed (s : MemStorage) :
    handle ⟨.put, ["api", "tasks", "toggle-all"], ⟨none, none⟩⟩ s
      = (⟨400, .messageJson "Invalid task ID"⟩, s) ∧
    toggleAllRoute MemStorage.init = (⟨200, .tasksJson []⟩, MemStorage.init) ∧
    toggleAllRoute ⟨[⟨1, "a", true⟩, ⟨2, "b", false⟩], 3⟩
      = (⟨200, .tasksJson [⟨1, "a", true⟩, ⟨2, "b", true⟩]⟩,
         ⟨[⟨1, "a", true⟩, ⟨2, "b", true⟩], 3⟩) :=
  ⟨rfl, by decide, by decide⟩

/-- C2: the claim fails on the code because DELETE /api/tasks/:id is
registered before DELETE /api/tasks/completed, so every clear-completed
request is captured by the :id route, parseInt yields NaN on "completed",
and the server answers 400 Invalid task ID with the store untouched. The
clear-completed handler itself, were it reachable, does behave as the
specification says: on a store holding one completed task it answers 200
with deletedCount 1 and removes the record. -/
theorem clearCompleted_request_shadowed (s : MemStorage) :
    handle ⟨.delete, ["api", "tasks", "completed"], ⟨none, none⟩⟩ s
      = (⟨400, .messageJson "Invalid task ID"⟩, s) ∧
    clearCompletedRoute ⟨[⟨1, "Buy milk", true⟩], 2⟩
      = (⟨200, .deletedCountJson 1⟩, ⟨[], 2⟩) :=
  ⟨rfl, by decide⟩

/-- C4 counterexample: the id segment "1x" is not an integer, yet
parseInt truncates it to 1, so the PUT request is served with 200 and the
store is modified — not the 400-and-unchanged the claim requires. -/
theorem nonInteger_id_accepted :
    parseIntJS "1x" = some 1 ∧
    handle ⟨.put, ["api", "tasks", "1x"], ⟨none, some (.bool true)⟩⟩ ⟨[⟨1, "a", false⟩], 2⟩
      = (⟨200, .taskJson ⟨1, "a", true⟩⟩, ⟨[⟨1, "a", true⟩], 2⟩) ∧
    (⟨[⟨1, "a", true⟩], 2⟩ : MemStorage) ≠ ⟨[⟨1, "a", false⟩], 2⟩ := by
  decide

/-- C4 (amended): a PUT or DELETE on /api/tasks/:id answers 400 Invalid
task ID and leaves the store unchanged exactly when parseInt yields NaN
on the id segment (no leading integer part); ids with a numeric prefix
are instead truncated to that integer and processed. -/
theorem nan_id_returns_400 (idStr : String) (b : RawBody) (s : MemStorage)
    (hne : idStr ≠ "") (hnan : parseIntJS idStr = none) :
    handle ⟨.put, ["api", "tasks", idStr], b⟩ s
      = (⟨400, .messageJson "Invalid task ID"⟩, s) ∧
    handle ⟨.delete, ["api", "tasks", idStr], b⟩ s
      = (⟨400, .messageJson "Invalid task ID"⟩, s) := by
  constructor
  · simp [handle, findRoute, routes, matchPat, hne, runRoute, updateTaskRoute, hnan]
  · simp [handle, findRoute, routes, matchPat, hne, runRoute, deleteTaskRoute, hnan]

theorem nan_id_returns_400_witness :
    (("abc" : String) ≠ "" ∧ parseIntJS "abc" = none) ∧
    (handle ⟨.put, ["api", "tasks", "abc"], ⟨none, none⟩⟩ MemStorage.init
       = (⟨400, .messageJson "Invalid task ID"⟩, MemStorage.init) ∧
     handle ⟨.delete, ["api", "tasks", "abc"], ⟨none, none⟩⟩ MemStorage.init
       = (⟨400, .messageJson "Invalid task ID"⟩, MemStorage.init)) :=
  ⟨⟨by decide, by decide⟩,
   nan_id_returns_400 "abc" ⟨none, none⟩ MemStorage.init (by decide) (by decide)⟩

/-- A record accepted by the insert schema has text of length at least 1. -/
theorem parseInsert_len {b : RawBody} {ins : InsertTask} (h : parseInsert b = some ins) :
    1 ≤ ins.text.length := by
  unfold parseInsert at h
  split at h
  next t heq =>
    split at h
    next hv =>
      have hlen : 1 ≤ t.length ∧ t.length ≤ 500 := of_decide_eq_true hv
      split at h
      · cases h
        exact hlen.1
      · cases h
        exact hlen.1
      · cases h
    next hv => cases h
  next heq => cases h

/-- The update schema passes the text field through verbatim: the parsed
text is absent, or is exactly the string the body carried. -/
theorem parseUpdate_text {b : RawBody} {u : UpdateTask} (h : parseUpdate b = some u) :
    u.text = none ∨ ∃ t, b.text = some (.str t) ∧ u.text = some t := by
  unfold parseUpdate at h
  split at h
  · cases h
    exact Or.inl rfl
  next t heq1 heq2 =>
    cases h
    exact Or.inr ⟨t, heq1, rfl⟩
  next c heq1 heq2 =>
    cases h
    exact Or.inl rfl
  next t c heq1 heq2 =>
    cases h
    exact Or.inr ⟨t, heq1, rfl⟩
  next heq => cases h

/-- updateTask preserves the non-empty-text invariant as long as the
update itself never carries empty text. -/
theorem textInv_updateTask (s : MemStorage) (id : Int) (u : UpdateTask)
    (hs : TextInv s) (hu : ∀ t', u.text = some t' → t' ≠ "") :
    TextInv (updateTask s id u).2 := by
  unfold updateTask
  split
  · exact hs
  next existing heq =>
    intro t ht
    have ht2 : t ∈ mapSet s.tasks
        ⟨existing.id, u.text.getD existing.text, u.completed.getD existing.completed⟩ := ht
    rcases mem_mapSet ht2 with rfl | ht'
    · show u.text.getD existing.text ≠ ""
      cases hut : u.text with
      | none => exact hs existing (mem_of_mapGet heq)
      | some t' => exact hu t' hut
    · exact hs t ht'

/-- The create handler preserves the non-empty-text invariant: the insert
schema only lets through text of length at least 1. -/
theorem textInv_createTaskRoute (b : RawBody) (s : MemStorage) (hs : TextInv s) :
    TextInv (createTaskRoute b s).2 := by
  unfold createTaskRoute
  cases hp : parseInsert b with
  | none => exact hs
  | some ins =>
    intro t ht
    have ht2 : t ∈ mapSet s.tasks ⟨s.currentId, ins.text, ins.completed.getD false⟩ := ht
    rcases mem_mapSet ht2 with rfl | ht'
    · show ins.text ≠ ""
      have hlen := parseInsert_len hp
      intro he
      rw [he] at hlen
      exact absurd hlen (by decide)
    · exact hs t ht'

/-- deleteTask only removes entries, so it preserves the invariant. -/
theorem textInv_deleteTask (s : MemStorage) (id : Int) (hs : TextInv s) :
    TextInv (deleteTask s id).2 := by
  intro t ht
  have ht2 : t ∈ s.tasks.filter (fun x => !((x.id : Int) == id)) := ht
  exact hs t (List.mem_of_mem_filter ht2)

/-- clearCompletedTasks only removes entries, so it preserves the
invariant. -/
theorem textInv_clearCompletedTasks (s : MemStorage) (hs : TextInv s) :
    TextInv (clearCompletedTasks s).2 := by
  intro t ht
  have ht2 : t ∈ (s.tasks.filter (fun x => x.completed)).foldl
      (fun acc d => (mapDelete acc (d.id : Int)).2) s.tasks := ht
  rw [foldl_mapDelete_eq_filter] at ht2
  exact hs t (List.mem_of_mem_filter ht2)

/-- The update handler preserves the invariant when the request body
never carries empty text. -/
theorem textInv_updateTaskRoute (idStr : String) (b : RawBody) (s : MemStorage)
    (hs : TextInv s) (hb : ∀ t', b.text = some (.str t') → t' ≠ "") :
    TextInv (updateTaskRoute idStr b s).2 := by
  unfold updateTaskRoute
  split
  · exact hs
  next id heq =>
    split
    · exact hs
    next u hpu =>
      have hu : ∀ t', u.text = some t' → t' ≠ "" := by
        intro t' ht'
        rcases parseUpdate_text hpu with hn | ⟨t2, hb2, hu2⟩
        · rw [hn] at ht'
          cases ht'
        · rw [hu2] at ht'
          obtain rfl : t2 = t' := by injection ht'
          exact hb t2 hb2
      have key := textInv_updateTask s id u hs hu
      split
      next s2 hupd =>
        rw [hupd] at key
        exact key
      next t0 s2 hupd =>
        rw [hupd] at key
        exact key

/-- The delete handler preserves the invariant. -/
theorem textInv_deleteTaskRoute (idStr : String) (s : MemStorage) (hs : TextInv s) :
    TextInv (deleteTaskRoute idStr s).2 := by
  unfold deleteTaskRoute
  split
  · exact hs
  next id heq =>
    have key := textInv_deleteTask s id hs
    split
    next s2 hdel =>
      rw [hdel] at key
      exact key
    next s2 hdel =>
      rw [hdel] at key
      exact key

/-- One handled request preserves the invariant, given its body never
carries an empty text string. -/
theorem textInv_handle (op : ApiOp) (s : MemStorage) (hs : TextInv s)
    (hsafe : op.textSafe = true) : TextInv (handle op.toRequest s).2 := by
  cases op with
  | createOp b => exact textInv_createTaskRoute b s hs
  | updateOp idStr b =>
    have hb : ∀ t', b.text = some (.str t') → t' ≠ "" := by
      intro t' hbt
      simp only [ApiOp.textSafe, hbt] at hsafe
      intro he
      subst he
      simp at hsafe
    by_cases hid : idStr = ""
    · subst hid
      exact hs
    · have hred : handle (ApiOp.updateOp idStr b).toRequest s = updateTaskRoute idStr b s := by
        simp [handle, ApiOp.toRequest, findRoute, routes, matchPat, hid, runRoute]
      rw [hred]
      exact textInv_updateTaskRoute idStr b s hs hb
  | deleteOp idStr =>
    by_cases hid : idStr = ""
    · subst hid
      exact hs
    · have hred : handle (ApiOp.deleteOp idStr).toRequest s = deleteTaskRoute idStr s := by
        simp [handle, ApiOp.toRequest, findRoute, routes, matchPat, hid, runRoute]
      rw [hred]
      exact textInv_deleteTaskRoute idStr s hs
  | clearOp => exact hs
  | toggleOp => exact hs

/-- A whole request sequence of non-empty-text bodies preserves the
invariant. -/
theorem textInv_runApi (ops : List ApiOp) : ∀ s : MemStorage, TextInv s →
    (∀ op ∈ ops, op.textSafe = true) → TextInv (runApi s ops) := by
  induction ops with
  | nil =>
    intro s hs _
    exact hs
  | cons op rest ih =>
    intro s hs hsafe
    have h1 := textInv_handle op s hs (hsafe op (List.mem_cons_self _ _))
    have h2 : runApi s (op :: rest) = runApi (handle op.toRequest s).2 rest := rfl
    rw [h2]
    exact ih _ h1 (fun o ho => hsafe o (List.mem_cons_of_mem _ ho))

/-- C3 counterexample: a create of "a" passes validation (201), then a
PUT whose body sets text to the empty string also passes validation (the
update schema has no length refinement) and succeeds (200), leaving the
store holding a task whose text is the empty string — the claimed
invariant fails on the code. -/
theorem empty_text_reachable_via_update :
    (handle ⟨.post, ["api", "tasks"], ⟨some (.str "a"), none⟩⟩ MemStorage.init).1.status = 201 ∧
    (handle ⟨.put, ["api", "tasks", "1"], ⟨some (.str ""), none⟩⟩
        (handle ⟨.post, ["api", "tasks"], ⟨some (.str "a"), none⟩⟩ MemStorage.init).2).1.status
      = 200 ∧
    Task.mk 1 "" false ∈
      (runApi MemStorage.init
        [ApiOp.createOp ⟨some (.str "a"), none⟩,
         ApiOp.updateOp "1" ⟨some (.str ""), none⟩]).tasks := by
  decide

/-- C3 (amended): every task created through the API has non-empty text,
because the insert schema enforces 1..500 characters; the update schema
does not re-validate text, so the invariant holds for exactly those
request sequences whose update bodies never carry an empty text string. -/
theorem text_nonempty_when_updates_nonempty (ops : List ApiOp)
    (h : ops.all ApiOp.textSafe = true) :
    ∀ t ∈ (runApi MemStorage.init ops).tasks, t.text ≠ "" :=
  textInv_runApi ops MemStorage.init (fun t ht => absurd ht (List.not_mem_nil t))
    (fun op hop => List.all_eq_true.mp h op hop)

theorem text_nonempty_when_updates_nonempty_witness :
    ([ApiOp.createOp ⟨some (.str "hi"), none⟩,
      ApiOp.updateOp "1" ⟨none, some (.bool true)⟩].all ApiOp.textSafe = true) ∧
    (Task.mk 1 "hi" true).text ≠ "" :=
  ⟨by decide,
   text_nonempty_when_updates_nonempty
     [ApiOp.createOp ⟨some (.str "hi"), none⟩, ApiOp.updateOp "1" ⟨none, some (.bool true)⟩]
     (by decide) ⟨1, "hi", true⟩ (by decide)⟩

end Todo
